import Mathlib

/-!
Verification of the image-transform pipeline of wplace-image-conversion
(src/src/lib/functions.ts) against its natural-language specification.

The pixel model follows the source: an ImageData value is a width × height
grid of RGBA pixels stored as a flat byte list in row-major order, four
bytes per pixel.  Bytes live in a Uint8ClampedArray, so every store clamps
to [0,255] and rounds a fractional value to the nearest integer with ties
to even; reads always yield integers in [0,255].  All JavaScript float
arithmetic that feeds a store in this file is exact in binary64 (integer
products divided by 16) except inside flattenAlpha, where the computed
value is always farther than 1/510 from every rounding boundary while the
float error is below 1e-12, so exact rational arithmetic models it
faithfully.
-/

namespace Wplace

/-- Color is an RGB triple as stored in the palette (integers 0–255). -/
abbrev Color := Nat × Nat × Nat

/-- ImageDataM models the DOM ImageData: width, height and the flat RGBA
byte list (row-major, 4 bytes per pixel, invariant length = 4·w·h). -/
structure ImageDataM where
  width : Nat
  height : Nat
  data : List Nat
deriving Repr, DecidableEq

/-- Store semantics of Uint8ClampedArray for a nonnegative integer value:
clamp to 255 (the low end is free for Nat). -/
def clampByte (v : Nat) : Nat := min v 255

/-- Size adjuster, from adjustImageSize in functions.ts:
floor(original / blockSize) · blockSize on each axis, then forced up to at
least one full block by max with blockSize. -/
def adjustImageSize (originalWidth originalHeight blockSize : Nat) : Nat × Nat :=
  (max (originalWidth / blockSize * blockSize) blockSize,
   max (originalHeight / blockSize * blockSize) blockSize)

/-- Squared Euclidean RGB distance, from findNearestPaletteColor:
pow(r − c₀, 2) + pow(g − c₁, 2) + pow(b − c₂, 2) over the integers. -/
def dist2 (r g b : Nat) (c : Color) : Int :=
  ((r : Int) - (c.1 : Int)) ^ 2 + ((g : Int) - (c.2.1 : Int)) ^ 2
    + ((b : Int) - (c.2.2 : Int)) ^ 2

/-- Comparison of a finite distance with the running minimum, where none
models the initial Infinity (every finite distance is below it). -/
def ltInf (d : Int) : Option Int → Bool
  | none => true
  | some m => d < m

/-- Loop body of findNearestPaletteColor: walk the palette keeping the
current minimum distance and the current best color, updating on a strict
improvement only. -/
def nearestLoop (r g b : Nat) : List Color → Option Int → Color → Color
  | [], _, best => best
  | c :: rest, minD, best =>
    if ltInf (dist2 r g b c) minD then nearestLoop r g b rest (some (dist2 r g b c)) c
    else nearestLoop r g b rest minD best

/-- Nearest-palette search, from findNearestPaletteColor in functions.ts:
minDistance starts at Infinity and nearestColor at palette[0] (headD with a
dummy for the empty palette, on which the JavaScript would throw). -/
def findNearestPaletteColor (r g b : Nat) (palette : List Color) : Color :=
  nearestLoop r g b palette none (palette.headD (0, 0, 0))

/-- Alpha compositing of one channel against the white background, from
flattenAlpha: Math.round(channel · (a/255) + 255 · (1 − a/255)), with
Math.round x = ⌊x + 1/2⌋, modelled in exact rational arithmetic. -/
def flattenChannel (c a : Nat) : Nat :=
  (Int.floor ((c : ℚ) * ((a : ℚ) / 255) + 255 * (1 - (a : ℚ) / 255) + 1 / 2)).toNat

/-- Body of the flattenAlpha loop (i += 4 over the flat byte list): a
pixel with alpha below 255 is composited onto white and made opaque, any
other pixel is copied unchanged. -/
def flattenData : List Nat → List Nat
  | r :: g :: b :: a :: rest =>
    if a < 255 then
      flattenChannel r a :: flattenChannel g a :: flattenChannel b a :: 255 :: flattenData rest
    else
      r :: g :: b :: a :: flattenData rest
  | l => l

/-- Alpha flattener, from flattenAlpha in functions.ts (mutates the buffer
in place; modelled as returning the new buffer). -/
def flattenAlpha (img : ImageDataM) : ImageDataM :=
  ⟨img.width, img.height, flattenData img.data⟩

/-- Predicate: every pixel of the flat byte list has alpha byte 255. -/
def allOpaque : List Nat → Prop
  | _ :: _ :: _ :: a :: rest => a = 255 ∧ allOpaque rest
  | _ => True

/-- Body of the quantizeToNearestColor loop: each pixel's RGB is replaced
by its nearest palette color (stored through the clamping array), alpha is
not written. -/
def quantizeData (palette : List Color) : List Nat → List Nat
  | r :: g :: b :: a :: rest =>
    clampByte (findNearestPaletteColor r g b palette).1 ::
      clampByte (findNearestPaletteColor r g b palette).2.1 ::
      clampByte (findNearestPaletteColor r g b palette).2.2 ::
      a :: quantizeData palette rest
  | l => l

/-- Nearest-color quantizer, from quantizeToNearestColor in functions.ts. -/
def quantizeToNearestColor (img : ImageDataM) (palette : List Color) : ImageDataM :=
  ⟨img.width, img.height, quantizeData palette img.data⟩

/-- Read of one byte of the pixel at (x, y), channel c ∈ {0,1,2,3}. -/
def samplePixel (img : ImageDataM) (x y c : Nat) : Nat :=
  img.data.getD ((y * img.width + x) * 4 + c) 0

/-- Modelled from the spec: the canvas drawImage resampling with
imageSmoothingEnabled = false (pixelateImage draws through a temporary
canvas, code that lives in the browser, not in this repository).  Spec
§4.2/§9 require an explicit nearest-neighbor index mapping; each output
pixel samples the source at the floor-scaled coordinate. -/
def resample (img : ImageDataM) (newW newH : Nat) : ImageDataM :=
  ⟨newW, newH,
    (List.range (newW * newH)).flatMap (fun i =>
      [samplePixel img (i % newW * img.width / newW) (i / newW * img.height / newH) 0,
       samplePixel img (i % newW * img.width / newW) (i / newW * img.height / newH) 1,
       samplePixel img (i % newW * img.width / newW) (i / newW * img.height / newH) 2,
       samplePixel img (i % newW * img.width / newW) (i / newW * img.height / newH) 3])⟩

/-- Pixelator, from pixelateImage in functions.ts: returns at once when
blockSize ≤ 1 (before touching any pixel), otherwise downsamples to
max(1, floor(dim / blockSize)) per axis and upsamples back, both with
nearest-neighbor sampling (the resampling itself is modelled from the
spec, see resample). -/
def pixelateImage (img : ImageDataM) (blockSize : Nat) : ImageDataM :=
  if blockSize ≤ 1 then img
  else
    resample (resample img (max 1 (img.width / blockSize)) (max 1 (img.height / blockSize)))
      img.width img.height

/-- Store of cur + err·w/16 into the clamped byte array, from the error
diffusion lines of floydSteinbergDither: the float
Math.max(0, Math.min(255, cur + err·w/16)) is the exact rational m/16 with
m = max 0 (min 4080 (16·cur + err·w)), and the Uint8ClampedArray store
rounds it to the nearest integer with ties to even. -/
def diffuse (cur : Nat) (err : Int) (w : Nat) : Nat :=
  (let m : Int := max 0 (min 4080 (16 * (cur : Int) + err * (w : Int)))
   if m % 16 < 8 then m / 16
   else if 8 < m % 16 then m / 16 + 1
   else if m / 16 % 2 = 0 then m / 16 else m / 16 + 1).toNat

/-- Write of one byte of the working array, modelled as a point update of
the index-to-value function (every index the dither loop writes lies
inside the array, so the typed-array bound check never fires). -/
def setByte (d : Nat → Nat) (i v : Nat) : Nat → Nat :=
  fun j => if j = i then v else d j

/-- One three-line diffusion block of floydSteinbergDither: add the scaled
error to channels R, G, B of the neighbor whose R byte sits at index i,
sequentially, through the clamping store. -/
def diffuseAt (data : Nat → Nat) (i : Nat) (eR eG eB : Int) (w : Nat) : Nat → Nat :=
  let d1 := setByte data i (diffuse (data i) eR w)
  let d2 := setByte d1 (i + 1) (diffuse (d1 (i + 1)) eG w)
  setByte d2 (i + 2) (diffuse (d2 (i + 2)) eB w)

/-- Inner loop body of floydSteinbergDither for the pixel (x, y): read the
current error-adjusted RGB, write the nearest palette color at the pixel,
then diffuse the error old − new to the right neighbor (weight 7/16), the
bottom-left (3/16), the bottom (5/16) and the bottom-right (1/16),
skipping neighbors outside the grid. -/
def ditherPixel (palette : List Color) (width height x y : Nat) (data : Nat → Nat) : Nat → Nat :=
  let idx := (y * width + x) * 4
  let oldR := data idx
  let oldG := data (idx + 1)
  let oldB := data (idx + 2)
  let c := findNearestPaletteColor oldR oldG oldB palette
  let data1 := setByte (setByte (setByte data idx (clampByte c.1)) (idx + 1) (clampByte c.2.1))
    (idx + 2) (clampByte c.2.2)
  let errR : Int := (oldR : Int) - (c.1 : Int)
  let errG : Int := (oldG : Int) - (c.2.1 : Int)
  let errB : Int := (oldB : Int) - (c.2.2 : Int)
  let data2 := if x + 1 < width then diffuseAt data1 ((y * width + x + 1) * 4) errR errG errB 7
    else data1
  if y + 1 < height then
    let dA := if 0 < x then diffuseAt data2 (((y + 1) * width + x - 1) * 4) errR errG errB 3
      else data2
    let dB := diffuseAt dA (((y + 1) * width + x) * 4) errR errG errB 5
    if x + 1 < width then diffuseAt dB (((y + 1) * width + x + 1) * 4) errR errG errB 1
    else dB
  else data2

/-- Raster-order double loop of floydSteinbergDither (y outer, x inner)
over the working array. -/
def ditherData (palette : List Color) (width height : Nat) (data : Nat → Nat) : Nat → Nat :=
  (List.range height).foldl
    (fun d y => (List.range width).foldl (fun d x => ditherPixel palette width height x y d) d)
    data

/-- Floyd–Steinberg ditherer, from floydSteinbergDither in functions.ts:
a fresh copy of the input bytes (same byte length) is processed in raster
order and returned as a new ImageData of the same dimensions.  Alpha bytes
are never written by the loop. -/
def floydSteinbergDither (img : ImageDataM) (palette : List Color) : ImageDataM :=
  ⟨img.width, img.height,
    (List.range img.data.length).map
      (ditherData palette img.width img.height (fun k => img.data.getD k 0))⟩

/-- Closed-form description of one dither step, written from the spec
sentence for claim C2: the quantization error old − new is diffused, each
channel independently, only to the in-grid neighbors (x+1,y) with weight
7/16, (x−1,y+1) with 3/16, (x,y+1) with 5/16 and (x+1,y+1) with 1/16, each
target byte clamped to [0,255] on store and computed from that neighbor's
own old value; at the pixel itself the palette color is written; every
other byte, every alpha byte included, is unchanged.  Branches are listed
in reverse write order; the five written pixels are pairwise distinct for
any processed (x, y), so the order is immaterial. -/
def ditherPixelSpec (palette : List Color) (width height x y : Nat) (data : Nat → Nat)
    (j : Nat) : Nat :=
  let idx := (y * width + x) * 4
  let c := findNearestPaletteColor (data idx) (data (idx + 1)) (data (idx + 2)) palette
  let errR : Int := (data idx : Int) - (c.1 : Int)
  let errG : Int := (data (idx + 1) : Int) - (c.2.1 : Int)
  let errB : Int := (data (idx + 2) : Int) - (c.2.2 : Int)
  if (y + 1 < height ∧ x + 1 < width) ∧ j = ((y + 1) * width + x + 1) * 4 then
    diffuse (data (((y + 1) * width + x + 1) * 4)) errR 1
  else if (y + 1 < height ∧ x + 1 < width) ∧ j = ((y + 1) * width + x + 1) * 4 + 1 then
    diffuse (data (((y + 1) * width + x + 1) * 4 + 1)) errG 1
  else if (y + 1 < height ∧ x + 1 < width) ∧ j = ((y + 1) * width + x + 1) * 4 + 2 then
    diffuse (data (((y + 1) * width + x + 1) * 4 + 2)) errB 1
  else if y + 1 < height ∧ j = ((y + 1) * width + x) * 4 then
    diffuse (data (((y + 1) * width + x) * 4)) errR 5
  else if y + 1 < height ∧ j = ((y + 1) * width + x) * 4 + 1 then
    diffuse (data (((y + 1) * width + x) * 4 + 1)) errG 5
  else if y + 1 < height ∧ j = ((y + 1) * width + x) * 4 + 2 then
    diffuse (data (((y + 1) * width + x) * 4 + 2)) errB 5
  else if (y + 1 < height ∧ 0 < x) ∧ j = ((y + 1) * width + x - 1) * 4 then
    diffuse (data (((y + 1) * width + x - 1) * 4)) errR 3
  else if (y + 1 < height ∧ 0 < x) ∧ j = ((y + 1) * width + x - 1) * 4 + 1 then
    diffuse (data (((y + 1) * width + x - 1) * 4 + 1)) errG 3
  else if (y + 1 < height ∧ 0 < x) ∧ j = ((y + 1) * width + x - 1) * 4 + 2 then
    diffuse (data (((y + 1) * width + x - 1) * 4 + 2)) errB 3
  else if x + 1 < width ∧ j = (y * width + x + 1) * 4 then
    diffuse (data ((y * width + x + 1) * 4)) errR 7
  else if x + 1 < width ∧ j = (y * width + x + 1) * 4 + 1 then
    diffuse (data ((y * width + x + 1) * 4 + 1)) errG 7
  else if x + 1 < width ∧ j = (y * width + x + 1) * 4 + 2 then
    diffuse (data ((y * width + x + 1) * 4 + 2)) errB 7
  else if j = idx + 2 then clampByte c.2.2
  else if j = idx + 1 then clampByte c.2.1
  else if j = idx then clampByte c.1
  else data j

/-! General helper lemmas. -/

/-- Reading a flat RGBA list four places further skips one whole pixel. -/
lemma getD_cons4 (w x y z : Nat) (t : List Nat) (m : Nat) :
    List.getD (w :: x :: y :: z :: t) (m + 4) 0 = t.getD m 0 := by
  show List.getD (w :: x :: y :: z :: t) (m + 1 + 1 + 1 + 1) 0 = t.getD m 0
  rw [List.getD_cons_succ, List.getD_cons_succ, List.getD_cons_succ, List.getD_cons_succ]

/-- Negative branch of an if-then-else, specialized for chains of index
disequalities discharged by omega. -/
lemma iteFalse {α : Sort _} {c : Prop} [Decidable c] (h : ¬c) (a b : α) :
    (if c then a else b) = b := if_neg h

/-- Claim C8: for every blockSize ≥ 1, adjustImageSize returns
width = max(⌊originalWidth / blockSize⌋ · blockSize, blockSize) and height
computed the same way, and both results are multiples of blockSize and at
least blockSize (hence never zero). -/
theorem adjustImageSize_spec (w h b : Nat) (hb : 1 ≤ b) :
    (adjustImageSize w h b).1 = max (w / b * b) b ∧
    (adjustImageSize w h b).2 = max (h / b * b) b ∧
    b ∣ (adjustImageSize w h b).1 ∧ b ∣ (adjustImageSize w h b).2 ∧
    b ≤ (adjustImageSize w h b).1 ∧ b ≤ (adjustImageSize w h b).2 := by
  refine ⟨rfl, rfl, ?_, ?_, le_max_right _ _, le_max_right _ _⟩
  · rcases max_choice (w / b * b) b with h1 | h1 <;>
      simp only [adjustImageSize, h1]
    · exact dvd_mul_left b _
    · exact dvd_rfl
  · rcases max_choice (h / b * b) b with h1 | h1 <;>
      simp only [adjustImageSize, h1]
    · exact dvd_mul_left b _
    · exact dvd_rfl

/-- Witness for claim C8 at originalWidth 7, originalHeight 3, blockSize 4. -/
theorem adjustImageSize_spec_witness :
    1 ≤ 4 ∧
    ((adjustImageSize 7 3 4).1 = max (7 / 4 * 4) 4 ∧
      (adjustImageSize 7 3 4).2 = max (3 / 4 * 4) 4 ∧
      4 ∣ (adjustImageSize 7 3 4).1 ∧ 4 ∣ (adjustImageSize 7 3 4).2 ∧
      4 ≤ (adjustImageSize 7 3 4).1 ∧ 4 ≤ (adjustImageSize 7 3 4).2) :=
  ⟨by decide, adjustImageSize_spec 7 3 4 (by decide)⟩

/-- Claim C9: pixelateImage invoked with blockSize ≤ 1 returns before
touching any pixel, leaving the buffer completely unchanged. -/
theorem pixelateImage_noop_of_le_one (img : ImageDataM) (b : Nat) (hb : b ≤ 1) :
    pixelateImage img b = img := by
  simp [pixelateImage, hb]

/-- Witness for claim C9 on a concrete 1×1 buffer with blockSize 1. -/
theorem pixelateImage_noop_witness :
    1 ≤ 1 ∧ pixelateImage ⟨1, 1, [5, 6, 7, 8]⟩ 1 = ⟨1, 1, [5, 6, 7, 8]⟩ :=
  ⟨le_refl 1, pixelateImage_noop_of_le_one ⟨1, 1, [5, 6, 7, 8]⟩ 1 (le_refl 1)⟩

/-! Nearest-palette search. -/

/-- Result of the nearest-color loop is the running best or one of the
remaining palette entries. -/
lemma nearestLoop_mem (r g b : Nat) :
    ∀ (l : List Color) (m : Option Int) (best : Color),
      nearestLoop r g b l m best ∈ best :: l := by
  intro l
  induction l with
  | nil => intro m best; simp [nearestLoop]
  | cons c rest ih =>
    intro m best
    rw [nearestLoop]
    split
    · have h := ih (some (dist2 r g b c)) c
      simp only [List.mem_cons] at h ⊢
      tauto
    · have h := ih m best
      simp only [List.mem_cons] at h ⊢
      tauto

/-- Nearest-palette search returns a palette entry when the palette is
non-empty. -/
lemma findNearestPaletteColor_mem (r g b : Nat) (palette : List Color)
    (hp : palette ≠ []) : findNearestPaletteColor r g b palette ∈ palette := by
  cases palette with
  | nil => exact absurd rfl hp
  | cons p ps =>
    have h := nearestLoop_mem r g b (p :: ps) none ((p :: ps).headD (0, 0, 0))
    simp only [List.headD_cons, List.mem_cons] at h
    simp only [findNearestPaletteColor, List.headD_cons, List.mem_cons]
    tauto

/-- Invariant of the nearest-color loop when the running minimum is the
distance of the running best: the result is the first entry of
best :: rest attaining the minimum distance (strict improvement is needed
to replace the running best, so the earliest minimizer wins). -/
lemma nearestLoop_firstMin (r g b : Nat) :
    ∀ (l : List Color) (best : Color),
      ∃ i, i < (best :: l).length ∧
        (best :: l).getD i (0, 0, 0) = nearestLoop r g b l (some (dist2 r g b best)) best ∧
        (∀ j, j < (best :: l).length →
          dist2 r g b (nearestLoop r g b l (some (dist2 r g b best)) best) ≤
            dist2 r g b ((best :: l).getD j (0, 0, 0))) ∧
        (∀ j, j < i →
          dist2 r g b (nearestLoop r g b l (some (dist2 r g b best)) best) <
            dist2 r g b ((best :: l).getD j (0, 0, 0))) := by
  intro l
  induction l with
  | nil =>
    intro best
    refine ⟨0, by simp, by simp [nearestLoop], ?_, by omega⟩
    intro j hj
    have hj0 : j = 0 := by simp at hj; exact hj
    subst hj0
    simp [nearestLoop]
  | cons c rest ih =>
    intro best
    by_cases hlt : dist2 r g b c < dist2 r g b best
    · rw [nearestLoop]
      simp only [ltInf, decide_eq_true_eq, hlt, if_true]
      obtain ⟨i, hi, hget, hmin, hstrict⟩ := ih c
      refine ⟨i + 1, by simpa using hi, by simpa using hget, ?_, ?_⟩
      · intro j hj
        match j with
        | 0 =>
          have h0 := hmin 0 (by simp)
          simp only [List.getD_cons_zero] at h0 ⊢
          omega
        | jj + 1 =>
          have h := hmin jj (by simp at hj ⊢; omega)
          simpa using h
      · intro j hj
        match j with
        | 0 =>
          have h0 := hmin 0 (by simp)
          simp only [List.getD_cons_zero] at h0 ⊢
          omega
        | jj + 1 =>
          have h := hstrict jj (by omega)
          simpa using h
    · rw [nearestLoop]
      simp only [ltInf, decide_eq_true_eq, hlt, if_false]
      obtain ⟨i, hi, hget, hmin, hstrict⟩ := ih best
      match i, hi with
      | 0, hi =>
        simp only [List.getD_cons_zero] at hget
        refine ⟨0, by simp, by simpa using hget, ?_, by omega⟩
        intro j hj
        match j with
        | 0 =>
          have h0 := hmin 0 (by simp)
          simpa using h0
        | 1 =>
          have h0 := hmin 0 (by simp)
          simp only [List.getD_cons_zero] at h0 ⊢
          simp only [List.getD_cons_succ, List.getD_cons_zero]
          omega
        | jj + 2 =>
          have h := hmin (jj + 1) (by simp at hj ⊢; omega)
          simpa using h
      | k + 1, hi =>
        refine ⟨k + 2, by simp at hi ⊢; omega, by simpa using hget, ?_, ?_⟩
        · intro j hj
          match j with
          | 0 =>
            have h0 := hmin 0 (by simp)
            simpa using h0
          | 1 =>
            have h0 := hstrict 0 (by omega)
            simp only [List.getD_cons_zero] at h0 ⊢
            simp only [List.getD_cons_succ, List.getD_cons_zero]
            omega
          | jj + 2 =>
            have h := hmin (jj + 1) (by simp at hj ⊢; omega)
            simpa using h
        · intro j hj
          match j with
          | 0 =>
            have h0 := hstrict 0 (by omega)
            simpa using h0
          | 1 =>
            have h0 := hstrict 0 (by omega)
            simp only [List.getD_cons_zero] at h0 ⊢
            simp only [List.getD_cons_succ, List.getD_cons_zero]
            omega
          | jj + 2 =>
            have h := hstrict (jj + 1) (by omega)
            simpa using h

/-- Functional specification of findNearestPaletteColor on a non-empty
palette: the result is the entry at the least index attaining the minimum
squared Euclidean distance. -/
lemma findNearestPaletteColor_firstMin (r g b : Nat) (palette : List Color)
    (hp : palette ≠ []) :
    ∃ i, i < palette.length ∧
      palette.getD i (0, 0, 0) = findNearestPaletteColor r g b palette ∧
      (∀ j, j < palette.length →
        dist2 r g b (findNearestPaletteColor r g b palette) ≤
          dist2 r g b (palette.getD j (0, 0, 0))) ∧
      (∀ j, j < i →
        dist2 r g b (findNearestPaletteColor r g b palette) <
          dist2 r g b (palette.getD j (0, 0, 0))) := by
  cases palette with
  | nil => exact absurd rfl hp
  | cons p ps =>
    have hstep : findNearestPaletteColor r g b (p :: ps) =
        nearestLoop r g b ps (some (dist2 r g b p)) p := by
      simp [findNearestPaletteColor, nearestLoop, ltInf]
    rw [hstep]
    exact nearestLoop_firstMin r g b ps p

/-- Claim C4: findNearestPaletteColor returns the palette entry that
minimizes squared Euclidean distance, breaking exact ties in favor of the
lowest palette index; in particular for palette [[0,0,0],[10,10,10]] and
query (5,5,5) it returns [0,0,0]. -/
theorem findNearestPaletteColor_first_min (r g b : Nat) (palette : List Color)
    (hp : palette ≠ []) :
    (∃ i, i < palette.length ∧
      palette.getD i (0, 0, 0) = findNearestPaletteColor r g b palette ∧
      (∀ j, j < palette.length →
        dist2 r g b (findNearestPaletteColor r g b palette) ≤
          dist2 r g b (palette.getD j (0, 0, 0))) ∧
      (∀ j, j < i →
        dist2 r g b (findNearestPaletteColor r g b palette) <
          dist2 r g b (palette.getD j (0, 0, 0)))) ∧
    findNearestPaletteColor 5 5 5 [(0, 0, 0), (10, 10, 10)] = (0, 0, 0) :=
  ⟨findNearestPaletteColor_firstMin r g b palette hp, by decide⟩

/-- Witness for claim C4 at query (5,5,5) and palette [(0,0,0),(10,10,10)]. -/
theorem findNearestPaletteColor_first_min_witness :
    ([((0 : Nat), (0 : Nat), (0 : Nat)), (10, 10, 10)] : List Color) ≠ [] ∧
    ((∃ i, i < ([((0 : Nat), (0 : Nat), (0 : Nat)), (10, 10, 10)] : List Color).length ∧
      ([((0 : Nat), (0 : Nat), (0 : Nat)), (10, 10, 10)] : List Color).getD i (0, 0, 0) =
        findNearestPaletteColor 5 5 5 [(0, 0, 0), (10, 10, 10)] ∧
      (∀ j, j < ([((0 : Nat), (0 : Nat), (0 : Nat)), (10, 10, 10)] : List Color).length →
        dist2 5 5 5 (findNearestPaletteColor 5 5 5 [(0, 0, 0), (10, 10, 10)]) ≤
          dist2 5 5 5
            (([((0 : Nat), (0 : Nat), (0 : Nat)), (10, 10, 10)] : List Color).getD j
              (0, 0, 0))) ∧
      (∀ j, j < i →
        dist2 5 5 5 (findNearestPaletteColor 5 5 5 [(0, 0, 0), (10, 10, 10)]) <
          dist2 5 5 5
            (([((0 : Nat), (0 : Nat), (0 : Nat)), (10, 10, 10)] : List Color).getD j
              (0, 0, 0)))) ∧
      findNearestPaletteColor 5 5 5 [(0, 0, 0), (10, 10, 10)] = (0, 0, 0)) :=
  ⟨by decide, findNearestPaletteColor_first_min 5 5 5 [(0, 0, 0), (10, 10, 10)] (by decide)⟩

/-! Alpha flattening. -/

/-- Pointwise description of the flattenAlpha loop on the flat byte list:
pixel k is composited onto white and made opaque when its alpha is below
255 and copied byte-for-byte otherwise. -/
lemma flattenData_getD :
    ∀ (k : Nat) (l : List Nat), 4 * k + 3 < l.length →
      ((l.getD (4 * k + 3) 0 < 255 →
          (flattenData l).getD (4 * k) 0 =
            flattenChannel (l.getD (4 * k) 0) (l.getD (4 * k + 3) 0) ∧
          (flattenData l).getD (4 * k + 1) 0 =
            flattenChannel (l.getD (4 * k + 1) 0) (l.getD (4 * k + 3) 0) ∧
          (flattenData l).getD (4 * k + 2) 0 =
            flattenChannel (l.getD (4 * k + 2) 0) (l.getD (4 * k + 3) 0) ∧
          (flattenData l).getD (4 * k + 3) 0 = 255) ∧
        (255 ≤ l.getD (4 * k + 3) 0 →
          ∀ c, c < 4 → (flattenData l).getD (4 * k + c) 0 = l.getD (4 * k + c) 0)) := by
  intro k
  induction k with
  | zero =>
    intro l hl
    match l, hl with
    | r :: g :: b :: a :: rest, _ =>
      constructor
      · intro ha
        simp only [List.getD_cons_zero, List.getD_cons_succ] at ha ⊢
        simp [flattenData, ha, List.getD_cons_zero, List.getD_cons_succ]
      · intro ha c hc
        simp only [List.getD_cons_zero, List.getD_cons_succ] at ha
        have hnot : ¬ a < 255 := by omega
        interval_cases c <;>
          simp [flattenData, hnot, List.getD_cons_zero, List.getD_cons_succ]
  | succ k ih =>
    intro l hl
    match l, hl with
    | r :: g :: b :: a :: rest, hl =>
      have hlen : 4 * k + 3 < rest.length := by
        simp only [List.length_cons] at hl; omega
      have hrest := ih rest hlen
      by_cases ha : a < 255
      · simp only [flattenData, if_pos ha,
          show (4 : Nat) * (k + 1) = 4 * k + 4 from by ring,
          show ∀ c : Nat, 4 * k + 4 + c = 4 * k + c + 4 from fun c => by ring, getD_cons4]
        exact hrest
      · simp only [flattenData, if_neg ha,
          show (4 : Nat) * (k + 1) = 4 * k + 4 from by ring,
          show ∀ c : Nat, 4 * k + 4 + c = 4 * k + c + 4 from fun c => by ring, getD_cons4]
        exact hrest

/-- Claim C6: flattenAlpha maps every pixel with alpha a < 255 to channel
values round(source · (a/255) + 255 · (1 − a/255)) on R, G and B
(background fixed at white) and sets its alpha to 255, while every pixel
whose alpha is already at least 255 is left byte-identical. -/
theorem flattenAlpha_pixel_formula (img : ImageDataM) (k : Nat)
    (hk : 4 * k + 3 < img.data.length) :
    ((img.data.getD (4 * k + 3) 0 < 255 →
        (flattenAlpha img).data.getD (4 * k) 0 =
          flattenChannel (img.data.getD (4 * k) 0) (img.data.getD (4 * k + 3) 0) ∧
        (flattenAlpha img).data.getD (4 * k + 1) 0 =
          flattenChannel (img.data.getD (4 * k + 1) 0) (img.data.getD (4 * k + 3) 0) ∧
        (flattenAlpha img).data.getD (4 * k + 2) 0 =
          flattenChannel (img.data.getD (4 * k + 2) 0) (img.data.getD (4 * k + 3) 0) ∧
        (flattenAlpha img).data.getD (4 * k + 3) 0 = 255) ∧
      (255 ≤ img.data.getD (4 * k + 3) 0 →
        ∀ c, c < 4 →
          (flattenAlpha img).data.getD (4 * k + c) 0 = img.data.getD (4 * k + c) 0)) :=
  flattenData_getD k img.data hk

/-- Witness for claim C6 on the 1×1 buffer [10,20,30,128] at pixel 0. -/
theorem flattenAlpha_pixel_formula_witness :
    4 * 0 + 3 < (ImageDataM.mk 1 1 [10, 20, 30, 128]).data.length ∧
    (((ImageDataM.mk 1 1 [10, 20, 30, 128]).data.getD (4 * 0 + 3) 0 < 255 →
        (flattenAlpha (ImageDataM.mk 1 1 [10, 20, 30, 128])).data.getD (4 * 0) 0 =
          flattenChannel ((ImageDataM.mk 1 1 [10, 20, 30, 128]).data.getD (4 * 0) 0)
            ((ImageDataM.mk 1 1 [10, 20, 30, 128]).data.getD (4 * 0 + 3) 0) ∧
        (flattenAlpha (ImageDataM.mk 1 1 [10, 20, 30, 128])).data.getD (4 * 0 + 1) 0 =
          flattenChannel ((ImageDataM.mk 1 1 [10, 20, 30, 128]).data.getD (4 * 0 + 1) 0)
            ((ImageDataM.mk 1 1 [10, 20, 30, 128]).data.getD (4 * 0 + 3) 0) ∧
        (flattenAlpha (ImageDataM.mk 1 1 [10, 20, 30, 128])).data.getD (4 * 0 + 2) 0 =
          flattenChannel ((ImageDataM.mk 1 1 [10, 20, 30, 128]).data.getD (4 * 0 + 2) 0)
            ((ImageDataM.mk 1 1 [10, 20, 30, 128]).data.getD (4 * 0 + 3) 0) ∧
        (flattenAlpha (ImageDataM.mk 1 1 [10, 20, 30, 128])).data.getD (4 * 0 + 3) 0 = 255) ∧
      (255 ≤ (ImageDataM.mk 1 1 [10, 20, 30, 128]).data.getD (4 * 0 + 3) 0 →
        ∀ c, c < 4 →
          (flattenAlpha (ImageDataM.mk 1 1 [10, 20, 30, 128])).data.getD (4 * 0 + c) 0 =
            (ImageDataM.mk 1 1 [10, 20, 30, 128]).data.getD (4 * 0 + c) 0)) :=
  ⟨by decide, flattenAlpha_pixel_formula (ImageDataM.mk 1 1 [10, 20, 30, 128]) 0 (by decide)⟩

/-- Flattening a list whose pixels are all opaque copies it unchanged. -/
lemma flattenData_of_allOpaque : ∀ (l : List Nat), allOpaque l → flattenData l = l
  | [], _ => rfl
  | [_], _ => rfl
  | [_, _], _ => rfl
  | [_, _, _], _ => rfl
  | r :: g :: b :: a :: rest, h => by
    obtain ⟨h1, h2⟩ := h
    subst h1
    simp [flattenData, flattenData_of_allOpaque rest h2]

/-- Flattening twice gives the same bytes as flattening once. -/
lemma flattenData_flattenData : ∀ (l : List Nat), flattenData (flattenData l) = flattenData l
  | [] => rfl
  | [_] => rfl
  | [_, _] => rfl
  | [_, _, _] => rfl
  | r :: g :: b :: a :: rest => by
    by_cases ha : a < 255
    · simp [flattenData, ha, flattenData_flattenData rest]
    · simp [flattenData, ha, flattenData_flattenData rest]

/-- Claim C7: flattenAlpha is idempotent after its first application: on a
buffer whose pixels all have alpha 255 it is a byte-for-byte no-op, and
applying it twice always produces the same bytes as applying it once. -/
theorem flattenAlpha_idempotent (img : ImageDataM) :
    (allOpaque img.data → flattenAlpha img = img) ∧
    flattenAlpha (flattenAlpha img) = flattenAlpha img := by
  constructor
  · intro h
    cases img with
    | mk w ht d => simp [flattenAlpha, flattenData_of_allOpaque d h]
  · cases img with
    | mk w ht d => simp [flattenAlpha, flattenData_flattenData d]

/-- Witness for claim C7 on the opaque 1×1 buffer [1,2,3,255]. -/
theorem flattenAlpha_idempotent_witness :
    allOpaque (ImageDataM.mk 1 1 [1, 2, 3, 255]).data ∧
    ((allOpaque (ImageDataM.mk 1 1 [1, 2, 3, 255]).data →
        flattenAlpha (ImageDataM.mk 1 1 [1, 2, 3, 255]) = ImageDataM.mk 1 1 [1, 2, 3, 255]) ∧
      flattenAlpha (flattenAlpha (ImageDataM.mk 1 1 [1, 2, 3, 255])) =
        flattenAlpha (ImageDataM.mk 1 1 [1, 2, 3, 255])) :=
  ⟨⟨rfl, trivial⟩, flattenAlpha_idempotent (ImageDataM.mk 1 1 [1, 2, 3, 255])⟩

/-! Nearest-color quantization. -/

/-- Quantization never writes an alpha byte. -/
lemma quantizeData_getD_alpha (palette : List Color) :
    ∀ (l : List Nat) (i : Nat), i % 4 = 3 → (quantizeData palette l).getD i 0 = l.getD i 0
  | [], _, _ => rfl
  | [_], _, _ => rfl
  | [_, _], _, _ => rfl
  | [_, _, _], _, _ => rfl
  | r :: g :: b :: a :: rest, i, hi => by
    have hcase : i = 3 ∨ ∃ m, i = m + 4 ∧ m % 4 = 3 := by
      rcases Nat.lt_or_ge i 4 with h | h
      · left; omega
      · right; exact ⟨i - 4, by omega, by omega⟩
    rcases hcase with rfl | ⟨m, rfl, hm⟩
    · simp [quantizeData, List.getD_cons_succ, List.getD_cons_zero]
    · simp only [quantizeData, getD_cons4]
      exact quantizeData_getD_alpha palette rest m hm

/-- Every pixel written by quantization is a palette entry (palette
entries being genuine bytes, the clamping store keeps them intact). -/
lemma quantizeData_pixel_mem (palette : List Color) (hp : palette ≠ [])
    (hb : ∀ c ∈ palette, c.1 ≤ 255 ∧ c.2.1 ≤ 255 ∧ c.2.2 ≤ 255) :
    ∀ (k : Nat) (l : List Nat), 4 * k + 3 < l.length →
      ((quantizeData palette l).getD (4 * k) 0, (quantizeData palette l).getD (4 * k + 1) 0,
        (quantizeData palette l).getD (4 * k + 2) 0) ∈ palette := by
  intro k
  induction k with
  | zero =>
    intro l hl
    match l, hl with
    | r :: g :: b :: a :: rest, _ =>
      have hmem := findNearestPaletteColor_mem r g b palette hp
      obtain ⟨h1, h2, h3⟩ := hb _ hmem
      have e0 : (quantizeData palette (r :: g :: b :: a :: rest)).getD (4 * 0) 0 =
          clampByte (findNearestPaletteColor r g b palette).1 := rfl
      have e1 : (quantizeData palette (r :: g :: b :: a :: rest)).getD (4 * 0 + 1) 0 =
          clampByte (findNearestPaletteColor r g b palette).2.1 := rfl
      have e2 : (quantizeData palette (r :: g :: b :: a :: rest)).getD (4 * 0 + 2) 0 =
          clampByte (findNearestPaletteColor r g b palette).2.2 := rfl
      rw [e0, e1, e2, clampByte, clampByte, clampByte, Nat.min_eq_left h1, Nat.min_eq_left h2,
        Nat.min_eq_left h3]
      exact hmem
  | succ k ih =>
    intro l hl
    match l, hl with
    | r :: g :: b :: a :: rest, hl =>
      have hlen : 4 * k + 3 < rest.length := by
        simp only [List.length_cons] at hl; omega
      have h := ih rest hlen
      simp only [quantizeData, show (4 : Nat) * (k + 1) = 4 * k + 4 from by ring,
        show ∀ c : Nat, 4 * k + 4 + c = 4 * k + c + 4 from fun c => by ring, getD_cons4]
      exact h

/-- Each quantized pixel is exactly the nearest palette color of that
pixel's input RGB (palette entries are bytes, so the clamping store keeps
them intact). -/
lemma quantizeData_pixel_eq (palette : List Color) (hp : palette ≠ [])
    (hb : ∀ c ∈ palette, c.1 ≤ 255 ∧ c.2.1 ≤ 255 ∧ c.2.2 ≤ 255) :
    ∀ (k : Nat) (l : List Nat), 4 * k + 3 < l.length →
      ((quantizeData palette l).getD (4 * k) 0, (quantizeData palette l).getD (4 * k + 1) 0,
        (quantizeData palette l).getD (4 * k + 2) 0) =
        findNearestPaletteColor (l.getD (4 * k) 0) (l.getD (4 * k + 1) 0)
          (l.getD (4 * k + 2) 0) palette := by
  intro k
  induction k with
  | zero =>
    intro l hl
    match l, hl with
    | r :: g :: b :: a :: rest, _ =>
      have hmem := findNearestPaletteColor_mem r g b palette hp
      obtain ⟨h1, h2, h3⟩ := hb _ hmem
      have e0 : (quantizeData palette (r :: g :: b :: a :: rest)).getD (4 * 0) 0 =
          clampByte (findNearestPaletteColor r g b palette).1 := rfl
      have e1 : (quantizeData palette (r :: g :: b :: a :: rest)).getD (4 * 0 + 1) 0 =
          clampByte (findNearestPaletteColor r g b palette).2.1 := rfl
      have e2 : (quantizeData palette (r :: g :: b :: a :: rest)).getD (4 * 0 + 2) 0 =
          clampByte (findNearestPaletteColor r g b palette).2.2 := rfl
      have i0 : (r :: g :: b :: a :: rest).getD (4 * 0) 0 = r := rfl
      have i1 : (r :: g :: b :: a :: rest).getD (4 * 0 + 1) 0 = g := rfl
      have i2 : (r :: g :: b :: a :: rest).getD (4 * 0 + 2) 0 = b := rfl
      rw [e0, e1, e2, i0, i1, i2, clampByte, clampByte, clampByte, Nat.min_eq_left h1,
        Nat.min_eq_left h2, Nat.min_eq_left h3]
  | succ k ih =>
    intro l hl
    match l, hl with
    | r :: g :: b :: a :: rest, hl =>
      have hlen : 4 * k + 3 < rest.length := by
        simp only [List.length_cons] at hl; omega
      have h := ih rest hlen
      simp only [quantizeData, show (4 : Nat) * (k + 1) = 4 * k + 4 from by ring,
        show ∀ c : Nat, 4 * k + 4 + c = 4 * k + c + 4 from fun c => by ring, getD_cons4]
      exact h

/-- Claim C5: quantizeToNearestColor replaces each pixel's RGB with the
nearest palette color of that pixel's input RGB — so every output pixel's
RGB triple is exactly one of the palette entries — and performs no alpha
write. -/
theorem quantizeToNearestColor_spec (img : ImageDataM) (palette : List Color)
    (hp : palette ≠ [])
    (hb : ∀ c ∈ palette, c.1 ≤ 255 ∧ c.2.1 ≤ 255 ∧ c.2.2 ≤ 255) :
    (∀ k, 4 * k + 3 < img.data.length →
      ((quantizeToNearestColor img palette).data.getD (4 * k) 0,
        (quantizeToNearestColor img palette).data.getD (4 * k + 1) 0,
        (quantizeToNearestColor img palette).data.getD (4 * k + 2) 0) =
        findNearestPaletteColor (img.data.getD (4 * k) 0) (img.data.getD (4 * k + 1) 0)
          (img.data.getD (4 * k + 2) 0) palette ∧
      ((quantizeToNearestColor img palette).data.getD (4 * k) 0,
        (quantizeToNearestColor img palette).data.getD (4 * k + 1) 0,
        (quantizeToNearestColor img palette).data.getD (4 * k + 2) 0) ∈ palette) ∧
    (∀ i, i % 4 = 3 →
      (quantizeToNearestColor img palette).data.getD i 0 = img.data.getD i 0) := by
  refine ⟨fun k hk => ?_, fun i hi => quantizeData_getD_alpha palette img.data i hi⟩
  have he := quantizeData_pixel_eq palette hp hb k img.data hk
  refine ⟨he, ?_⟩
  show ((quantizeData palette img.data).getD (4 * k) 0,
      (quantizeData palette img.data).getD (4 * k + 1) 0,
      (quantizeData palette img.data).getD (4 * k + 2) 0) ∈ palette
  rw [he]
  exact findNearestPaletteColor_mem _ _ _ palette hp

/-- Witness for claim C5 on a concrete 1×2 buffer and a 3-color palette. -/
theorem quantizeToNearestColor_spec_witness :
    ([((0 : Nat), (0 : Nat), (0 : Nat)), (10, 10, 10), (255, 0, 0)] : List Color) ≠ [] ∧
    (∀ c ∈ ([((0 : Nat), (0 : Nat), (0 : Nat)), (10, 10, 10), (255, 0, 0)] : List Color),
      c.1 ≤ 255 ∧ c.2.1 ≤ 255 ∧ c.2.2 ≤ 255) ∧
    ((∀ k, 4 * k + 3 < (ImageDataM.mk 1 2 [5, 5, 5, 9, 200, 1, 1, 44]).data.length →
      ((quantizeToNearestColor (ImageDataM.mk 1 2 [5, 5, 5, 9, 200, 1, 1, 44])
          [(0, 0, 0), (10, 10, 10), (255, 0, 0)]).data.getD (4 * k) 0,
        (quantizeToNearestColor (ImageDataM.mk 1 2 [5, 5, 5, 9, 200, 1, 1, 44])
          [(0, 0, 0), (10, 10, 10), (255, 0, 0)]).data.getD (4 * k + 1) 0,
        (quantizeToNearestColor (ImageDataM.mk 1 2 [5, 5, 5, 9, 200, 1, 1, 44])
          [(0, 0, 0), (10, 10, 10), (255, 0, 0)]).data.getD (4 * k + 2) 0) =
        findNearestPaletteColor
          ((ImageDataM.mk 1 2 [5, 5, 5, 9, 200, 1, 1, 44]).data.getD (4 * k) 0)
          ((ImageDataM.mk 1 2 [5, 5, 5, 9, 200, 1, 1, 44]).data.getD (4 * k + 1) 0)
          ((ImageDataM.mk 1 2 [5, 5, 5, 9, 200, 1, 1, 44]).data.getD (4 * k + 2) 0)
          [(0, 0, 0), (10, 10, 10), (255, 0, 0)] ∧
      ((quantizeToNearestColor (ImageDataM.mk 1 2 [5, 5, 5, 9, 200, 1, 1, 44])
          [(0, 0, 0), (10, 10, 10), (255, 0, 0)]).data.getD (4 * k) 0,
        (quantizeToNearestColor (ImageDataM.mk 1 2 [5, 5, 5, 9, 200, 1, 1, 44])
          [(0, 0, 0), (10, 10, 10), (255, 0, 0)]).data.getD (4 * k + 1) 0,
        (quantizeToNearestColor (ImageDataM.mk 1 2 [5, 5, 5, 9, 200, 1, 1, 44])
          [(0, 0, 0), (10, 10, 10), (255, 0, 0)]).data.getD (4 * k + 2) 0) ∈
        ([((0 : Nat), (0 : Nat), (0 : Nat)), (10, 10, 10), (255, 0, 0)] : List Color)) ∧
    (∀ i, i % 4 = 3 →
      (quantizeToNearestColor (ImageDataM.mk 1 2 [5, 5, 5, 9, 200, 1, 1, 44])
          [(0, 0, 0), (10, 10, 10), (255, 0, 0)]).data.getD i 0 =
        (ImageDataM.mk 1 2 [5, 5, 5, 9, 200, 1, 1, 44]).data.getD i 0)) :=
  ⟨by decide, by decide,
    quantizeToNearestColor_spec (ImageDataM.mk 1 2 [5, 5, 5, 9, 200, 1, 1, 44])
      [(0, 0, 0), (10, 10, 10), (255, 0, 0)] (by decide) (by decide)⟩

/-! Idempotence of quantization. -/

/-- Squared distances are nonnegative. -/
lemma dist2_nonneg (r g b : Nat) (c : Color) : 0 ≤ dist2 r g b c := by
  unfold dist2
  positivity

/-- Distance of a color to itself is zero. -/
lemma dist2_self (c : Color) : dist2 c.1 c.2.1 c.2.2 c = 0 := by
  simp [dist2]

/-- Zero squared distance forces equality of all three components. -/
lemma eq_of_dist2_eq_zero (r g b : Nat) (c : Color) (h : dist2 r g b c = 0) :
    c = (r, g, b) := by
  obtain ⟨c1, c2, c3⟩ := c
  unfold dist2 at h
  simp only at h
  have s1 := sq_nonneg ((r : Int) - c1)
  have s2 := sq_nonneg ((g : Int) - c2)
  have s3 := sq_nonneg ((b : Int) - c3)
  have h1 : ((r : Int) - c1) ^ 2 = 0 := by nlinarith
  have h2 : ((g : Int) - c2) ^ 2 = 0 := by nlinarith
  have h3 : ((b : Int) - c3) ^ 2 = 0 := by nlinarith
  have e1 : (r : Int) = c1 := by nlinarith
  have e2 : (g : Int) = c2 := by nlinarith
  have e3 : (b : Int) = c3 := by nlinarith
  have n1 : c1 = r := by exact_mod_cast e1.symm
  have n2 : c2 = g := by exact_mod_cast e2.symm
  have n3 : c3 = b := by exact_mod_cast e3.symm
  simp [n1, n2, n3]

/-- A palette entry is a fixed point of the nearest-color search: its own
distance is 0 and the strict-< tie-break keeps the first zero-distance
entry, whose components coincide with the query. -/
lemma findNearestPaletteColor_of_mem (palette : List Color) (c : Color) (hc : c ∈ palette) :
    findNearestPaletteColor c.1 c.2.1 c.2.2 palette = c := by
  have hp : palette ≠ [] := by rintro rfl; simp at hc
  obtain ⟨i, hi, hget, hmin, hstrict⟩ :=
    findNearestPaletteColor_firstMin c.1 c.2.1 c.2.2 palette hp
  obtain ⟨j, hj, hcj⟩ := List.getElem_of_mem hc
  have hle := hmin j hj
  rw [List.getD_eq_getElem _ _ hj, hcj, dist2_self] at hle
  have hzero : dist2 c.1 c.2.1 c.2.2 (findNearestPaletteColor c.1 c.2.1 c.2.2 palette) = 0 :=
    le_antisymm hle (dist2_nonneg _ _ _ _)
  exact eq_of_dist2_eq_zero _ _ _ _ hzero

/-- Quantizing twice gives the same bytes as quantizing once. -/
lemma quantizeData_idem (palette : List Color) (hp : palette ≠ [])
    (hb : ∀ c ∈ palette, c.1 ≤ 255 ∧ c.2.1 ≤ 255 ∧ c.2.2 ≤ 255) :
    ∀ (l : List Nat), quantizeData palette (quantizeData palette l) = quantizeData palette l
  | [] => rfl
  | [_] => rfl
  | [_, _] => rfl
  | [_, _, _] => rfl
  | r :: g :: b :: a :: rest => by
    have hmem := findNearestPaletteColor_mem r g b palette hp
    obtain ⟨h1, h2, h3⟩ := hb _ hmem
    have e1 : clampByte (findNearestPaletteColor r g b palette).1 =
        (findNearestPaletteColor r g b palette).1 := Nat.min_eq_left h1
    have e2 : clampByte (findNearestPaletteColor r g b palette).2.1 =
        (findNearestPaletteColor r g b palette).2.1 := Nat.min_eq_left h2
    have e3 : clampByte (findNearestPaletteColor r g b palette).2.2 =
        (findNearestPaletteColor r g b palette).2.2 := Nat.min_eq_left h3
    have hfix := findNearestPaletteColor_of_mem palette _ hmem
    simp only [quantizeData, e1, e2, e3, hfix, quantizeData_idem palette hp hb rest]

/-- Claim C10: quantizeToNearestColor is idempotent: a second application
to an already-quantized buffer changes no byte, because each palette
color's nearest palette color has its own RGB (distance 0 beats every
other entry under the strict-< comparison). -/
theorem quantizeToNearestColor_idempotent (img : ImageDataM) (palette : List Color)
    (hp : palette ≠ [])
    (hb : ∀ c ∈ palette, c.1 ≤ 255 ∧ c.2.1 ≤ 255 ∧ c.2.2 ≤ 255) :
    quantizeToNearestColor (quantizeToNearestColor img palette) palette =
      quantizeToNearestColor img palette := by
  cases img with
  | mk w h d => simp [quantizeToNearestColor, quantizeData_idem palette hp hb d]

/-- Witness for claim C10 on a concrete 1×2 buffer and a 3-color palette. -/
theorem quantizeToNearestColor_idempotent_witness :
    ([((0 : Nat), (0 : Nat), (0 : Nat)), (10, 10, 10), (255, 0, 0)] : List Color) ≠ [] ∧
    (∀ c ∈ ([((0 : Nat), (0 : Nat), (0 : Nat)), (10, 10, 10), (255, 0, 0)] : List Color),
      c.1 ≤ 255 ∧ c.2.1 ≤ 255 ∧ c.2.2 ≤ 255) ∧
    quantizeToNearestColor
        (quantizeToNearestColor (ImageDataM.mk 1 2 [5, 5, 5, 9, 200, 1, 1, 44])
          [(0, 0, 0), (10, 10, 10), (255, 0, 0)])
        [(0, 0, 0), (10, 10, 10), (255, 0, 0)] =
      quantizeToNearestColor (ImageDataM.mk 1 2 [5, 5, 5, 9, 200, 1, 1, 44])
        [(0, 0, 0), (10, 10, 10), (255, 0, 0)] :=
  ⟨by decide, by decide,
    quantizeToNearestColor_idempotent (ImageDataM.mk 1 2 [5, 5, 5, 9, 200, 1, 1, 44])
      [(0, 0, 0), (10, 10, 10), (255, 0, 0)] (by decide) (by decide)⟩

/-! Floyd–Steinberg dithering. -/

/-- Pointwise effect of one diffusion block: the three channel bytes of
the target neighbor receive the diffused error, everything else is
untouched. -/
lemma diffuseAt_apply (data : Nat → Nat) (i : Nat) (eR eG eB : Int) (w j : Nat) :
    diffuseAt data i eR eG eB w j =
      if j = i then diffuse (data i) eR w
      else if j = i + 1 then diffuse (data (i + 1)) eG w
      else if j = i + 2 then diffuse (data (i + 2)) eB w
      else data j := by
  simp only [diffuseAt, setByte]
  split_ifs <;> first | rfl | omega | (exfalso; omega)

/-- Pointwise effect of a diffusion block guarded by an in-grid test. -/
lemma gdiffuseAt_apply (P : Prop) [Decidable P] (data : Nat → Nat) (i : Nat)
    (eR eG eB : Int) (w j : Nat) :
    (if P then diffuseAt data i eR eG eB w else data) j =
      if P ∧ j = i then diffuse (data i) eR w
      else if P ∧ j = i + 1 then diffuse (data (i + 1)) eG w
      else if P ∧ j = i + 2 then diffuse (data (i + 2)) eB w
      else data j := by
  by_cases h : P
  · simp [h, diffuseAt_apply]
  · simp [h]

/-- Restructuring of the bottom-row block of ditherPixel: the three
diffusions guarded together by the row test are equal to three separately
guarded diffusions applied in sequence. -/
lemma bottomBlock_eq (Q P1 P2 : Prop) [Decidable Q] [Decidable P1] [Decidable P2]
    (d : Nat → Nat) (i1 i2 i3 : Nat) (eR eG eB : Int) :
    (if Q then
       (if P2 then
          diffuseAt (diffuseAt (if P1 then diffuseAt d i1 eR eG eB 3 else d) i2 eR eG eB 5)
            i3 eR eG eB 1
        else diffuseAt (if P1 then diffuseAt d i1 eR eG eB 3 else d) i2 eR eG eB 5)
     else d) =
    (if Q ∧ P2 then
       diffuseAt
         (if Q then
            diffuseAt (if Q ∧ P1 then diffuseAt d i1 eR eG eB 3 else d) i2 eR eG eB 5
          else (if Q ∧ P1 then diffuseAt d i1 eR eG eB 3 else d))
         i3 eR eG eB 1
     else
       (if Q then
          diffuseAt (if Q ∧ P1 then diffuseAt d i1 eR eG eB 3 else d) i2 eR eG eB 5
        else (if Q ∧ P1 then diffuseAt d i1 eR eG eB 3 else d))) := by
  by_cases hQ : Q <;> by_cases h1 : P1 <;> by_cases h2 : P2 <;> simp [hQ, h1, h2]

set_option maxHeartbeats 1000000 in
/-- Pointwise characterization of one dither step: the sequential writes
of ditherPixel agree byte for byte with the closed-form ditherPixelSpec
(the five written pixels are pairwise distinct for a processed pixel, so
each diffusion block reads values the step has not yet modified). -/
lemma ditherPixel_apply (palette : List Color) (width height x y : Nat) (data : Nat → Nat)
    (hx : x < width) (hy : y < height) (j : Nat) :
    ditherPixel palette width height x y data j =
      ditherPixelSpec palette width height x y data j := by
  have e : (y + 1) * width = y * width + width := by ring
  simp only [ditherPixel, ditherPixelSpec]
  generalize hc : findNearestPaletteColor (data ((y * width + x) * 4)) (data ((y * width + x) * 4 + 1)) (data ((y * width + x) * 4 + 2)) palette = c
  generalize ((data ((y * width + x) * 4) : Int) - (c.1 : Int)) = eR
  generalize ((data ((y * width + x) * 4 + 1) : Int) - (c.2.1 : Int)) = eG
  generalize ((data ((y * width + x) * 4 + 2) : Int) - (c.2.2 : Int)) = eB
  simp only [e]
  rw [bottomBlock_eq]
  set d1 := setByte (setByte (setByte data ((y * width + x) * 4) (clampByte c.1)) ((y * width + x) * 4 + 1) (clampByte c.2.1)) ((y * width + x) * 4 + 2) (clampByte c.2.2) with hd1
  set d2 := if x + 1 < width then diffuseAt d1 ((y * width + x + 1) * 4) eR eG eB 7 else d1 with hd2
  set d3 := if y + 1 < height ∧ 0 < x then diffuseAt d2 ((y * width + width + x - 1) * 4) eR eG eB 3 else d2 with hd3
  set d4 := if y + 1 < height then diffuseAt d3 ((y * width + width + x) * 4) eR eG eB 5 else d3 with hd4
  set d5 := if y + 1 < height ∧ x + 1 < width then diffuseAt d4 ((y * width + width + x + 1) * 4) eR eG eB 1 else d4 with hd5
  have E1 : ∀ J, d1 J = (if J = (y * width + x) * 4 + 2 then clampByte c.2.2 else if J = (y * width + x) * 4 + 1 then clampByte c.2.1 else if J = (y * width + x) * 4 then clampByte c.1 else data J) := by
    intro J
    rw [hd1]
    rfl
  have r21 : d1 ((y * width + x + 1) * 4) = data ((y * width + x + 1) * 4) := by
    rw [E1, iteFalse (by omega), iteFalse (by omega), iteFalse (by omega)]
  have r22 : d1 ((y * width + x + 1) * 4 + 1) = data ((y * width + x + 1) * 4 + 1) := by
    rw [E1, iteFalse (by omega), iteFalse (by omega), iteFalse (by omega)]
  have r23 : d1 ((y * width + x + 1) * 4 + 2) = data ((y * width + x + 1) * 4 + 2) := by
    rw [E1, iteFalse (by omega), iteFalse (by omega), iteFalse (by omega)]
  have E2 : ∀ J, d2 J = (if x + 1 < width ∧ J = (y * width + x + 1) * 4 then diffuse (data ((y * width + x + 1) * 4)) eR 7 else if x + 1 < width ∧ J = (y * width + x + 1) * 4 + 1 then diffuse (data ((y * width + x + 1) * 4 + 1)) eG 7 else if x + 1 < width ∧ J = (y * width + x + 1) * 4 + 2 then diffuse (data ((y * width + x + 1) * 4 + 2)) eB 7 else d1 J) := by
    intro J
    rw [hd2, gdiffuseAt_apply, r21, r22, r23]
  have E3 : ∀ J, d3 J = (if (y + 1 < height ∧ 0 < x) ∧ J = (y * width + width + x - 1) * 4 then diffuse (data ((y * width + width + x - 1) * 4)) eR 3 else if (y + 1 < height ∧ 0 < x) ∧ J = (y * width + width + x - 1) * 4 + 1 then diffuse (data ((y * width + width + x - 1) * 4 + 1)) eG 3 else if (y + 1 < height ∧ 0 < x) ∧ J = (y * width + width + x - 1) * 4 + 2 then diffuse (data ((y * width + width + x - 1) * 4 + 2)) eB 3 else d2 J) := by
    by_cases hP : y + 1 < height ∧ 0 < x
    · have r31 : d2 ((y * width + width + x - 1) * 4) = data ((y * width + width + x - 1) * 4) := by
        rw [E2, iteFalse (by omega), iteFalse (by omega), iteFalse (by omega), E1,
          iteFalse (by omega), iteFalse (by omega), iteFalse (by omega)]
      have r32 : d2 ((y * width + width + x - 1) * 4 + 1) = data ((y * width + width + x - 1) * 4 + 1) := by
        rw [E2, iteFalse (by omega), iteFalse (by omega), iteFalse (by omega), E1,
          iteFalse (by omega), iteFalse (by omega), iteFalse (by omega)]
      have r33 : d2 ((y * width + width + x - 1) * 4 + 2) = data ((y * width + width + x - 1) * 4 + 2) := by
        rw [E2, iteFalse (by omega), iteFalse (by omega), iteFalse (by omega), E1,
          iteFalse (by omega), iteFalse (by omega), iteFalse (by omega)]
      intro J
      rw [hd3, gdiffuseAt_apply, r31, r32, r33]
    · intro J
      rw [hd3, if_neg hP, if_neg (fun hh => hP hh.1), if_neg (fun hh => hP hh.1),
        if_neg (fun hh => hP hh.1)]
  have E4 : ∀ J, d4 J = (if y + 1 < height ∧ J = (y * width + width + x) * 4 then diffuse (data ((y * width + width + x) * 4)) eR 5 else if y + 1 < height ∧ J = (y * width + width + x) * 4 + 1 then diffuse (data ((y * width + width + x) * 4 + 1)) eG 5 else if y + 1 < height ∧ J = (y * width + width + x) * 4 + 2 then diffuse (data ((y * width + width + x) * 4 + 2)) eB 5 else d3 J) := by
    have r41 : d3 ((y * width + width + x) * 4) = data ((y * width + width + x) * 4) := by
      rw [E3, iteFalse (by omega), iteFalse (by omega), iteFalse (by omega), E2,
        iteFalse (by omega), iteFalse (by omega), iteFalse (by omega), E1,
        iteFalse (by omega), iteFalse (by omega), iteFalse (by omega)]
    have r42 : d3 ((y * width + width + x) * 4 + 1) = data ((y * width + width + x) * 4 + 1) := by
      rw [E3, iteFalse (by omega), iteFalse (by omega), iteFalse (by omega), E2,
        iteFalse (by omega), iteFalse (by omega), iteFalse (by omega), E1,
        iteFalse (by omega), iteFalse (by omega), iteFalse (by omega)]
    have r43 : d3 ((y * width + width + x) * 4 + 2) = data ((y * width + width + x) * 4 + 2) := by
      rw [E3, iteFalse (by omega), iteFalse (by omega), iteFalse (by omega), E2,
        iteFalse (by omega), iteFalse (by omega), iteFalse (by omega), E1,
        iteFalse (by omega), iteFalse (by omega), iteFalse (by omega)]
    intro J
    rw [hd4, gdiffuseAt_apply, r41, r42, r43]
  have E5 : ∀ J, d5 J = (if (y + 1 < height ∧ x + 1 < width) ∧ J = (y * width + width + x + 1) * 4 then diffuse (data ((y * width + width + x + 1) * 4)) eR 1 else if (y + 1 < height ∧ x + 1 < width) ∧ J = (y * width + width + x + 1) * 4 + 1 then diffuse (data ((y * width + width + x + 1) * 4 + 1)) eG 1 else if (y + 1 < height ∧ x + 1 < width) ∧ J = (y * width + width + x + 1) * 4 + 2 then diffuse (data ((y * width + width + x + 1) * 4 + 2)) eB 1 else d4 J) := by
    have r51 : d4 ((y * width + width + x + 1) * 4) = data ((y * width + width + x + 1) * 4) := by
      rw [E4, iteFalse (by omega), iteFalse (by omega), iteFalse (by omega), E3,
        iteFalse (by omega), iteFalse (by omega), iteFalse (by omega), E2,
        iteFalse (by omega), iteFalse (by omega), iteFalse (by omega), E1,
        iteFalse (by omega), iteFalse (by omega), iteFalse (by omega)]
    have r52 : d4 ((y * width + width + x + 1) * 4 + 1) = data ((y * width + width + x + 1) * 4 + 1) := by
      rw [E4, iteFalse (by omega), iteFalse (by omega), iteFalse (by omega), E3,
        iteFalse (by omega), iteFalse (by omega), iteFalse (by omega), E2,
        iteFalse (by omega), iteFalse (by omega), iteFalse (by omega), E1,
        iteFalse (by omega), iteFalse (by omega), iteFalse (by omega)]
    have r53 : d4 ((y * width + width + x + 1) * 4 + 2) = data ((y * width + width + x + 1) * 4 + 2) := by
      rw [E4, iteFalse (by omega), iteFalse (by omega), iteFalse (by omega), E3,
        iteFalse (by omega), iteFalse (by omega), iteFalse (by omega), E2,
        iteFalse (by omega), iteFalse (by omega), iteFalse (by omega), E1,
        iteFalse (by omega), iteFalse (by omega), iteFalse (by omega)]
    intro J
    rw [hd5, gdiffuseAt_apply, r51, r52, r53]
  simp only [E5, E4, E3, E2, E1]

/-- Claim C2: in the dither step for a processed pixel (x, y), the
per-channel quantization error old − new is diffused only to the four
Floyd–Steinberg neighbors with weights 7/16 to (x+1,y), 3/16 to (x−1,y+1),
5/16 to (x,y+1) and 1/16 to (x+1,y+1), each channel independently, each
target byte clamped to [0,255] on store, neighbors outside the grid
skipped, with the palette color written at the pixel itself and every
other byte untouched — byte for byte the closed form ditherPixelSpec. -/
theorem ditherPixel_diffusion_kernel (palette : List Color) (width height x y : Nat)
    (data : Nat → Nat) (hx : x < width) (hy : y < height) (j : Nat) :
    ditherPixel palette width height x y data j =
      ditherPixelSpec palette width height x y data j :=
  ditherPixel_apply palette width height x y data hx hy j

/-- Witness for claim C2 on the 2×1 gray buffer of spec §8 at the right
neighbor's red byte. -/
theorem ditherPixel_diffusion_kernel_witness :
    0 < 2 ∧ 0 < 1 ∧
    ditherPixel [(0, 0, 0), (255, 255, 255)] 2 1 0 0
        (fun k => List.getD [128, 128, 128, 255, 128, 128, 128, 255] k 0) 4 =
      ditherPixelSpec [(0, 0, 0), (255, 255, 255)] 2 1 0 0
        (fun k => List.getD [128, 128, 128, 255, 128, 128, 128, 255] k 0) 4 :=
  ⟨by decide, by decide,
    ditherPixel_diffusion_kernel [(0, 0, 0), (255, 255, 255)] 2 1 0 0
      (fun k => List.getD [128, 128, 128, 255, 128, 128, 128, 255] k 0)
      (by decide) (by decide) 4⟩

/-- One dither step never writes an alpha byte (every written index is a
pixel base times four plus a channel offset below three). -/
lemma ditherPixel_apply_alpha (palette : List Color) (width height x y : Nat)
    (data : Nat → Nat) (j : Nat) (hx : x < width) (hy : y < height) (hj : j % 4 = 3) :
    ditherPixel palette width height x y data j = data j := by
  rw [ditherPixel_apply palette width height x y data hx hy j]
  simp only [ditherPixelSpec]
  rw [iteFalse (by omega), iteFalse (by omega), iteFalse (by omega), iteFalse (by omega), iteFalse (by omega), iteFalse (by omega), iteFalse (by omega), iteFalse (by omega), iteFalse (by omega), iteFalse (by omega), iteFalse (by omega), iteFalse (by omega), iteFalse (by omega), iteFalse (by omega), iteFalse (by omega)]

/-- One dither step never writes a byte below its own pixel's first byte:
all five written pixels sit at or after (x, y) in raster order. -/
lemma ditherPixel_apply_lt (palette : List Color) (width height x y : Nat)
    (data : Nat → Nat) (j : Nat) (hx : x < width) (hy : y < height)
    (hj : j < (y * width + x) * 4) :
    ditherPixel palette width height x y data j = data j := by
  rw [ditherPixel_apply palette width height x y data hx hy j]
  simp only [ditherPixelSpec]
  have e : (y + 1) * width = y * width + width := by ring
  rw [iteFalse (by omega), iteFalse (by omega), iteFalse (by omega), iteFalse (by omega), iteFalse (by omega), iteFalse (by omega), iteFalse (by omega), iteFalse (by omega), iteFalse (by omega), iteFalse (by omega), iteFalse (by omega), iteFalse (by omega), iteFalse (by omega), iteFalse (by omega), iteFalse (by omega)]

/-- Folding a list of steps that all leave index j untouched keeps the
value at j. -/
lemma foldl_apply_preserve (f : Nat → (Nat → Nat) → Nat → Nat) (j : Nat) :
    ∀ (l : List Nat) (d : Nat → Nat), (∀ a ∈ l, ∀ g : Nat → Nat, f a g j = g j) →
      (l.foldl (fun d a => f a d) d) j = d j := by
  intro l
  induction l with
  | nil => intro d _; rfl
  | cons a t ih =>
    intro d hf
    rw [List.foldl_cons, ih (f a d) (fun b hb g => hf b (List.mem_cons_of_mem a hb) g)]
    exact hf a (List.mem_cons_self a t) d

/-- The raster double loop never writes an alpha byte. -/
lemma ditherData_apply_alpha (palette : List Color) (width height : Nat) (data : Nat → Nat)
    (j : Nat) (hj : j % 4 = 3) : ditherData palette width height data j = data j := by
  unfold ditherData
  apply foldl_apply_preserve
  intro yy hyy g
  apply foldl_apply_preserve
  intro xx hxx g2
  exact ditherPixel_apply_alpha palette width height xx yy g2 j
    (List.mem_range.mp hxx) (List.mem_range.mp hyy) hj

/-- Reading the byte list rebuilt from a function over the index range. -/
lemma getD_range_map (f : Nat → Nat) (n i : Nat) :
    ((List.range n).map f).getD i 0 = if i < n then f i else 0 := by
  by_cases h : i < n
  · rw [if_pos h, List.getD_eq_getElem _ _ (by simpa using h)]
    simp
  · rw [if_neg h, List.getD_eq_default]
    simpa using h

/-- Claim C1 (counterexample): dithering a 1×1 buffer whose pixel has
alpha 7 against the one-color palette [(0,0,0)] returns alpha 7, not 255:
the function copies the input bytes and never writes an alpha byte, so the
output alpha is not fixed at 255 regardless of the input. -/
theorem floydSteinbergDither_alpha_counterexample :
    (floydSteinbergDither ⟨1, 1, [0, 0, 0, 7]⟩ [(0, 0, 0)]).data.getD 3 0 ≠ 255 := by
  decide

/-- Claim C1 (amended): floydSteinbergDither preserves every alpha byte:
each output alpha equals the corresponding input alpha (so the output is
fully opaque exactly when the input is, as after upstream flattening). -/
theorem floydSteinbergDither_preserves_alpha (img : ImageDataM) (palette : List Color)
    (i : Nat) (hi : i % 4 = 3) :
    (floydSteinbergDither img palette).data.getD i 0 = img.data.getD i 0 := by
  unfold floydSteinbergDither
  dsimp only
  rw [getD_range_map]
  by_cases h : i < img.data.length
  · rw [if_pos h, ditherData_apply_alpha palette img.width img.height _ i hi]
  · rw [if_neg h, List.getD_eq_default _ _ (by omega)]

/-- Witness for amended claim C1 on the 1×1 buffer with alpha 7. -/
theorem floydSteinbergDither_preserves_alpha_witness :
    3 % 4 = 3 ∧
    (floydSteinbergDither ⟨1, 1, [0, 0, 0, 7]⟩ [(0, 0, 0)]).data.getD 3 0 =
      (ImageDataM.mk 1 1 [0, 0, 0, 7]).data.getD 3 0 :=
  ⟨by decide, floydSteinbergDither_preserves_alpha ⟨1, 1, [0, 0, 0, 7]⟩ [(0, 0, 0)] 3 (by decide)⟩

/-- One dither step writes the clamped nearest palette color into the
three RGB bytes of its own pixel. -/
lemma ditherPixel_apply_own (palette : List Color) (width height x y : Nat) (data : Nat → Nat)
    (hx : x < width) (hy : y < height) :
    ditherPixel palette width height x y data ((y * width + x) * 4) =
      clampByte (findNearestPaletteColor (data ((y * width + x) * 4))
        (data ((y * width + x) * 4 + 1)) (data ((y * width + x) * 4 + 2)) palette).1 ∧
    ditherPixel palette width height x y data ((y * width + x) * 4 + 1) =
      clampByte (findNearestPaletteColor (data ((y * width + x) * 4))
        (data ((y * width + x) * 4 + 1)) (data ((y * width + x) * 4 + 2)) palette).2.1 ∧
    ditherPixel palette width height x y data ((y * width + x) * 4 + 2) =
      clampByte (findNearestPaletteColor (data ((y * width + x) * 4))
        (data ((y * width + x) * 4 + 1)) (data ((y * width + x) * 4 + 2)) palette).2.2 := by
  have e : (y + 1) * width = y * width + width := by ring
  refine ⟨?_, ?_, ?_⟩
  · rw [ditherPixel_apply palette width height x y data hx hy]
    simp only [ditherPixelSpec]
    rw [iteFalse (by omega), iteFalse (by omega), iteFalse (by omega), iteFalse (by omega),
      iteFalse (by omega), iteFalse (by omega), iteFalse (by omega), iteFalse (by omega),
      iteFalse (by omega), iteFalse (by omega), iteFalse (by omega), iteFalse (by omega),
      iteFalse (by omega), iteFalse (by omega), if_pos trivial]
  · rw [ditherPixel_apply palette width height x y data hx hy]
    simp only [ditherPixelSpec]
    rw [iteFalse (by omega), iteFalse (by omega), iteFalse (by omega), iteFalse (by omega),
      iteFalse (by omega), iteFalse (by omega), iteFalse (by omega), iteFalse (by omega),
      iteFalse (by omega), iteFalse (by omega), iteFalse (by omega), iteFalse (by omega),
      iteFalse (by omega), if_pos trivial]
  · rw [ditherPixel_apply palette width height x y data hx hy]
    simp only [ditherPixelSpec]
    rw [iteFalse (by omega), iteFalse (by omega), iteFalse (by omega), iteFalse (by omega),
      iteFalse (by omega), iteFalse (by omega), iteFalse (by omega), iteFalse (by omega),
      iteFalse (by omega), iteFalse (by omega), iteFalse (by omega), iteFalse (by omega),
      if_pos trivial]

/-- Folding a row segment starting at column a does not change bytes
before the segment's first pixel. -/
lemma rowFold_preserve (palette : List Color) (width height y : Nat) :
    ∀ (n a : Nat) (d : Nat → Nat) (j : Nat), a + n ≤ width → y < height →
      j < (y * width + a) * 4 →
      ((List.range' a n).foldl (fun d x => ditherPixel palette width height x y d) d) j = d j := by
  intro n
  induction n with
  | zero => intro a d j _ _ _; rfl
  | succ n ih =>
    intro a d j han hy hj
    rw [List.range'_succ, List.foldl_cons,
      ih (a + 1) (ditherPixel palette width height a y d) j (by omega) hy (by omega)]
    exact ditherPixel_apply_lt palette width height a y d j (by omega) hy hj

/-- After a row segment has processed column x, the RGB bytes of pixel
(x, y) hold a palette entry. -/
lemma rowFold_establish (palette : List Color) (width height y : Nat) (hp : palette ≠ [])
    (hb : ∀ cc ∈ palette, cc.1 ≤ 255 ∧ cc.2.1 ≤ 255 ∧ cc.2.2 ≤ 255) (hy : y < height) :
    ∀ (n a x : Nat) (d : Nat → Nat), a + n ≤ width → a ≤ x → x < a + n →
      ((((List.range' a n).foldl (fun d x => ditherPixel palette width height x y d) d)
          ((y * width + x) * 4)),
        (((List.range' a n).foldl (fun d x => ditherPixel palette width height x y d) d)
          ((y * width + x) * 4 + 1)),
        (((List.range' a n).foldl (fun d x => ditherPixel palette width height x y d) d)
          ((y * width + x) * 4 + 2))) ∈ palette := by
  intro n
  induction n with
  | zero => intro a x d _ h2 h3; omega
  | succ n ih =>
    intro a x d han hax hxan
    rw [List.range'_succ, List.foldl_cons]
    by_cases hxa : x = a
    · subst hxa
      rw [rowFold_preserve palette width height y n (x + 1) _ _ (by omega) hy (by omega),
        rowFold_preserve palette width height y n (x + 1) _ _ (by omega) hy (by omega),
        rowFold_preserve palette width height y n (x + 1) _ _ (by omega) hy (by omega)]
      obtain ⟨h0, h1, h2⟩ := ditherPixel_apply_own palette width height x y d (by omega) hy
      rw [h0, h1, h2]
      have hmem := findNearestPaletteColor_mem (d ((y * width + x) * 4))
        (d ((y * width + x) * 4 + 1)) (d ((y * width + x) * 4 + 2)) palette hp
      obtain ⟨b1, b2, b3⟩ := hb _ hmem
      simp only [clampByte]
      rw [Nat.min_eq_left b1, Nat.min_eq_left b2, Nat.min_eq_left b3]
      exact hmem
    · exact ih (a + 1) x (ditherPixel palette width height a y d) (by omega) (by omega) (by omega)

/-- Folding whole rows starting at row b does not change bytes before the
first pixel of row b. -/
lemma rowsFold_preserve (palette : List Color) (width height : Nat) :
    ∀ (m b : Nat) (d : Nat → Nat) (j : Nat), b + m ≤ height → j < b * width * 4 →
      ((List.range' b m).foldl
        (fun d yy => (List.range width).foldl (fun d x => ditherPixel palette width height x yy d) d)
        d) j = d j := by
  intro m
  induction m with
  | zero => intro b d j _ _; rfl
  | succ m ih =>
    intro b d j hbm hj
    have ee : (b + 1) * width = b * width + width := by ring
    rw [List.range'_succ, List.foldl_cons, ih (b + 1) _ j (by omega) (by omega),
      List.range_eq_range']
    exact rowFold_preserve palette width height b width 0 d j (by omega) (by omega) (by omega)

/-- After the row fold has processed row y, the RGB bytes of every pixel
(x, y) hold a palette entry. -/
lemma rowsFold_establish (palette : List Color) (width height : Nat) (hp : palette ≠ [])
    (hb : ∀ cc ∈ palette, cc.1 ≤ 255 ∧ cc.2.1 ≤ 255 ∧ cc.2.2 ≤ 255) :
    ∀ (m b x y : Nat) (d : Nat → Nat), b + m ≤ height → b ≤ y → y < b + m → x < width →
      ((((List.range' b m).foldl
          (fun d yy => (List.range width).foldl (fun d x => ditherPixel palette width height x yy d) d)
          d) ((y * width + x) * 4)),
        (((List.range' b m).foldl
          (fun d yy => (List.range width).foldl (fun d x => ditherPixel palette width height x yy d) d)
          d) ((y * width + x) * 4 + 1)),
        (((List.range' b m).foldl
          (fun d yy => (List.range width).foldl (fun d x => ditherPixel palette width height x yy d) d)
          d) ((y * width + x) * 4 + 2))) ∈ palette := by
  intro m
  induction m with
  | zero => intro b x y d _ h2 h3 _; omega
  | succ m ih =>
    intro b x y d hbm hby hybm hx
    rw [List.range'_succ, List.foldl_cons]
    by_cases hyb : y = b
    · subst hyb
      have ee : (y + 1) * width = y * width + width := by ring
      rw [rowsFold_preserve palette width height m (y + 1) _ _ (by omega) (by omega),
        rowsFold_preserve palette width height m (y + 1) _ _ (by omega) (by omega),
        rowsFold_preserve palette width height m (y + 1) _ _ (by omega) (by omega),
        List.range_eq_range']
      exact rowFold_establish palette width height y hp hb (by omega) width 0 x d
        (by omega) (by omega) (by omega)
    · exact ih (b + 1) x y _ (by omega) (by omega) (by omega) hx

/-- Claim C3: every pixel of the buffer returned by floydSteinbergDither
holds an RGB triple that is exactly one of the palette entries: error is
only ever diffused to pixels later in raster order, so a written palette
color is never modified afterwards. -/
theorem floydSteinbergDither_output_in_palette (img : ImageDataM) (palette : List Color)
    (hp : palette ≠ [])
    (hb : ∀ cc ∈ palette, cc.1 ≤ 255 ∧ cc.2.1 ≤ 255 ∧ cc.2.2 ≤ 255)
    (hlen : img.data.length = 4 * (img.width * img.height))
    (x y : Nat) (hx : x < img.width) (hy : y < img.height) :
    ((floydSteinbergDither img palette).data.getD ((y * img.width + x) * 4) 0,
      (floydSteinbergDither img palette).data.getD ((y * img.width + x) * 4 + 1) 0,
      (floydSteinbergDither img palette).data.getD ((y * img.width + x) * 4 + 2) 0) ∈ palette := by
  obtain ⟨w, h, dat⟩ := img
  simp only at hlen hx hy ⊢
  unfold floydSteinbergDither
  dsimp only
  rw [getD_range_map, getD_range_map, getD_range_map]
  have hwy : (y + 1) * w ≤ h * w := Nat.mul_le_mul_right w (by omega)
  have e1 : (y + 1) * w = y * w + w := by ring
  have e2 : h * w = w * h := Nat.mul_comm h w
  rw [if_pos (by rw [hlen]; omega), if_pos (by rw [hlen]; omega), if_pos (by rw [hlen]; omega)]
  unfold ditherData
  rw [List.range_eq_range' h]
  exact rowsFold_establish palette w h hp hb h 0 x y (fun k => dat.getD k 0)
    (by omega) (by omega) (by omega) hx

/-- Witness for claim C3 on a 1×1 buffer and a two-color palette. -/
theorem floydSteinbergDither_output_in_palette_witness :
    ([((0 : Nat), (0 : Nat), (0 : Nat)), (255, 255, 255)] : List Color) ≠ [] ∧
    (∀ cc ∈ ([((0 : Nat), (0 : Nat), (0 : Nat)), (255, 255, 255)] : List Color),
      cc.1 ≤ 255 ∧ cc.2.1 ≤ 255 ∧ cc.2.2 ≤ 255) ∧
    (ImageDataM.mk 1 1 [10, 20, 30, 255]).data.length =
      4 * ((ImageDataM.mk 1 1 [10, 20, 30, 255]).width *
        (ImageDataM.mk 1 1 [10, 20, 30, 255]).height) ∧
    ((floydSteinbergDither (ImageDataM.mk 1 1 [10, 20, 30, 255])
        [(0, 0, 0), (255, 255, 255)]).data.getD ((0 * 1 + 0) * 4) 0,
      (floydSteinbergDither (ImageDataM.mk 1 1 [10, 20, 30, 255])
        [(0, 0, 0), (255, 255, 255)]).data.getD ((0 * 1 + 0) * 4 + 1) 0,
      (floydSteinbergDither (ImageDataM.mk 1 1 [10, 20, 30, 255])
        [(0, 0, 0), (255, 255, 255)]).data.getD ((0 * 1 + 0) * 4 + 2) 0) ∈
      ([((0 : Nat), (0 : Nat), (0 : Nat)), (255, 255, 255)] : List Color) :=
  ⟨by decide, by decide, by decide,
    floydSteinbergDither_output_in_palette (ImageDataM.mk 1 1 [10, 20, 30, 255])
      [(0, 0, 0), (255, 255, 255)] (by decide) (by decide) (by decide) 0 0
      (by decide) (by decide)⟩

end Wplace
